import Mathlib

set_option maxRecDepth 4000

/-!
# A verification development for the TallyUp calculator

Shallow embedding of the TallyUp calculator sources:

* `js/utils.js`        → namespace `Utils`
* `js/operations.js`   → namespaces `Operations` and `MemoryOperations`
* `js/display.js`      → namespace `Display`
* `js/calculator.js`   → namespace `Calculator`

JavaScript numbers are modelled by `JSNum`: NaN, the two infinities, or a
finite value idealised as an exact rational.  Arithmetic on finite values is
exact; every numeric value that actually flows through the calculator is a
decimal fraction, which this idealisation represents faithfully.  Negative
zero is identified with zero (no modelled behaviour distinguishes them).
DOM manipulation, CSS classes, ARIA labels, logging, keyboard mapping and
visual feedback are presentation-only and are not modelled.
-/

/-- A JavaScript number: NaN, ±Infinity, or a finite value (exact rational). -/
inductive JSNum where
  | nan
  | inf
  | ninf
  | fin (q : ℚ)
deriving DecidableEq, Repr

/-- An arbitrary JavaScript value as far as the calculator's `typeof` checks
can see it: a number, or anything whose `typeof` is not `'number'`
(strings, `null`, `undefined`, objects…). -/
inductive JSVal where
  | num (x : JSNum)
  | nonNum
deriving DecidableEq, Repr

/-- A value that is either a number or a string, the return type of
`Operations.calculate` / `Operations.divide` (`number|string` in the source). -/
inductive CalcResult where
  | num (x : JSNum)
  | str (s : String)
deriving DecidableEq, Repr

/-- JS `isNaN` on a number. -/
def JSNum.isNaNb : JSNum → Bool
  | .nan => true
  | _ => false

/-- JS `isFinite` on a number. -/
def JSNum.isFiniteb : JSNum → Bool
  | .fin _ => true
  | _ => false

/-- JS `x > 0` (false for NaN). -/
def JSNum.gtZero : JSNum → Bool
  | .nan => false
  | .inf => true
  | .ninf => false
  | .fin q => decide (0 < q)

/-- JS `x < 0` (false for NaN). -/
def JSNum.ltZero : JSNum → Bool
  | .nan => false
  | .inf => false
  | .ninf => true
  | .fin q => decide (q < 0)

/-- JS addition `a + b` (IEEE special-value rules; finite case exact). -/
def jsAdd : JSNum → JSNum → JSNum
  | .nan, _ => .nan
  | _, .nan => .nan
  | .inf, .ninf => .nan
  | .ninf, .inf => .nan
  | .inf, _ => .inf
  | _, .inf => .inf
  | .ninf, _ => .ninf
  | _, .ninf => .ninf
  | .fin a, .fin b => .fin (a + b)

/-- JS subtraction `a - b`. -/
def jsSub : JSNum → JSNum → JSNum
  | .nan, _ => .nan
  | _, .nan => .nan
  | .inf, .inf => .nan
  | .ninf, .ninf => .nan
  | .inf, _ => .inf
  | _, .ninf => .inf
  | .ninf, _ => .ninf
  | _, .inf => .ninf
  | .fin a, .fin b => .fin (a - b)

/-- JS multiplication `a * b` (`Infinity * 0 = NaN`; sign rules). -/
def jsMul : JSNum → JSNum → JSNum
  | .nan, _ => .nan
  | _, .nan => .nan
  | .inf, .inf => .inf
  | .inf, .ninf => .ninf
  | .ninf, .inf => .ninf
  | .ninf, .ninf => .inf
  | .inf, .fin q => if q = 0 then .nan else if 0 < q then .inf else .ninf
  | .fin q, .inf => if q = 0 then .nan else if 0 < q then .inf else .ninf
  | .ninf, .fin q => if q = 0 then .nan else if 0 < q then .ninf else .inf
  | .fin q, .ninf => if q = 0 then .nan else if 0 < q then .ninf else .inf
  | .fin a, .fin b => .fin (a * b)

/-- JS division `a / b` (idealised: finite ÷ finite nonzero is exact;
division by zero follows the IEEE rules with −0 identified with 0). -/
def jsDiv : JSNum → JSNum → JSNum
  | .nan, _ => .nan
  | _, .nan => .nan
  | .inf, .inf => .nan
  | .inf, .ninf => .nan
  | .ninf, .inf => .nan
  | .ninf, .ninf => .nan
  | .inf, .fin q => if q < 0 then .ninf else .inf
  | .ninf, .fin q => if q < 0 then .inf else .ninf
  | .fin _, .inf => .fin 0
  | .fin _, .ninf => .fin 0
  | .fin a, .fin b =>
    if b = 0 then (if a = 0 then .nan else if 0 < a then .inf else .ninf)
    else .fin (a / b)

/-- JS unary negation. -/
def jsNeg : JSNum → JSNum
  | .nan => .nan
  | .inf => .ninf
  | .ninf => .inf
  | .fin q => .fin (-q)

/-- `Math.round`: round half toward +∞. -/
def jsRound (q : ℚ) : ℤ := ⌊q + 1/2⌋

/-! ## Decimal digit strings

The string machinery is developed on `List Char` with `String` wrappers.
Recursions carry explicit fuel so that every definition is structural and
kernel-reducible; fuel `40` covers every magnitude the calculator can meet
(at most about 20 decimal digits).
-/

/-- The character for a decimal digit. -/
def digitChar (d : ℕ) : Char := Char.ofNat (48 + d)

/-- The value of a decimal digit character. -/
def digitVal (c : Char) : ℕ := c.toNat - 48

/-- Decimal digit character test. -/
def isDigitChar (c : Char) : Bool := 48 ≤ c.toNat && c.toNat ≤ 57

/-- Little-endian decimal digits of `n`, with explicit fuel. -/
def digitsLE : ℕ → ℕ → List ℕ
  | 0, _ => []
  | fuel + 1, n => if n = 0 then [] else n % 10 :: digitsLE fuel (n / 10)

/-- Value of a little-endian digit list. -/
def ofDigitsLE (l : List ℕ) : ℕ := l.foldr (fun d acc => d + 10 * acc) 0

/-- Most-significant-first decimal numeral of `n` (JS `toString` of a
non-negative integer). -/
def renderNat (n : ℕ) : List Char :=
  if n = 0 then ['0'] else ((digitsLE 40 n).map digitChar).reverse

/-- Value of a most-significant-first decimal digit character list. -/
def parseNatChars (cs : List Char) : ℕ :=
  cs.foldl (fun a c => 10 * a + digitVal c) 0

/-- Longest digit prefix. -/
def takeDigits : List Char → List Char
  | [] => []
  | c :: cs => if isDigitChar c then c :: takeDigits cs else []

/-- Rest after the longest digit prefix. -/
def dropDigits : List Char → List Char
  | [] => []
  | c :: cs => if isDigitChar c then dropDigits cs else c :: cs

/-- `10^e` for a signed exponent. -/
def tenPowZ (e : ℤ) : ℚ := if 0 ≤ e then (10 : ℚ) ^ e.toNat else 1 / (10 : ℚ) ^ (-e).toNat

/-- Consume a leading `+`/`-` sign; `true` means negative. -/
def parseSign : List Char → Bool × List Char
  | [] => (false, [])
  | c :: cs => if c = '-' then (true, cs) else if c = '+' then (false, cs) else (false, c :: cs)

/-- JS `parseFloat`: parse the longest numeric prefix
(`[+-]? (digits [. digits?] | . digits) ([eE][+-]?digits)?`, or `Infinity`);
`NaN` when no digits are consumed.  The numeric value is idealised as exact. -/
def parseFloatChars (cs : List Char) : JSNum :=
  let sr := parseSign cs
  let neg := sr.1
  let cs1 := sr.2
  if cs1.take 8 = "Infinity".data then (if neg then .ninf else .inf)
  else
    let ip := takeDigits cs1
    let cs2 := dropDigits cs1
    let fr : List Char × List Char :=
      match cs2 with
      | c :: rest => if c = '.' then (takeDigits rest, dropDigits rest) else ([], cs2)
      | [] => ([], cs2)
    let fp := fr.1
    let cs3 := fr.2
    if ip = [] ∧ fp = [] then .nan
    else
      let e : ℤ :=
        match cs3 with
        | c :: rest =>
          if c = 'e' ∨ c = 'E' then
            let er := parseSign rest
            let ed := takeDigits er.2
            if ed = [] then 0
            else if er.1 then -(parseNatChars ed : ℤ) else (parseNatChars ed : ℤ)
          else 0
        | [] => 0
      let mag : ℚ := (parseNatChars ip : ℚ) + (parseNatChars fp : ℚ) / 10 ^ fp.length
      let v : ℚ := mag * tenPowZ e
      .fin (if neg then -v else v)

/-- Count the multiplicity of `p` in `n`, with fuel. -/
def countFactor : ℕ → ℕ → ℕ → ℕ
  | 0, _, _ => 0
  | fuel + 1, p, n =>
    if n % p = 0 ∧ n ≠ 0 ∧ 2 ≤ p then countFactor fuel p (n / p) + 1 else 0

/-- `Number.prototype.toFixed(f)` as a string (ECMA-262: magnitude rounded
half away from zero to `f` fractional digits; only used with `|x| < 10²¹`). -/
def toFixedChars (q : ℚ) (f : ℕ) : List Char :=
  let neg := q < 0
  let N := (⌊|q| * 10 ^ f + 1/2⌋).toNat
  let ds := renderNat N
  let body :=
    if f = 0 then ds
    else if f < ds.length then ds.take (ds.length - f) ++ '.' :: ds.drop (ds.length - f)
    else '0' :: '.' :: (List.replicate (f - ds.length) '0' ++ ds)
  if neg then '-' :: body else body

/-- ⌊log₁₀ a⌋ for a positive rational (junk at nonpositive inputs). -/
def decExp (a : ℚ) : ℤ :=
  let D := (renderNat a.den).length
  let m := (⌊a * 10 ^ D⌋).toNat
  ((renderNat m).length - 1 : ℤ) - D

/-- `Number.prototype.toExponential(6)` (ECMA-262: 7 significant digits,
rounded half away from zero, exponent printed with an explicit sign). -/
def toExponential6 (q : ℚ) : List Char :=
  if q = 0 then "0.000000e+0".data
  else
    let neg := q < 0
    let a := |q|
    let e0 := decExp a
    let n0 := (⌊a * tenPowZ (6 - e0) + 1/2⌋).toNat
    let ne : ℕ × ℤ := if n0 = 10 ^ 7 then (10 ^ 6, e0 + 1) else (n0, e0)
    let ds := renderNat ne.1
    let body := ds.take 1 ++ '.' :: ds.drop 1 ++
      'e' :: (if ne.2 < 0 then '-' else '+') :: renderNat ne.2.natAbs
    if neg then '-' :: body else body

/-- ECMA-262 `Number::toString` for a finite value, restricted to the decimal
fractions that arise in the calculator (every value this is applied to comes
out of `toFixed`/`parseFloat`, hence has denominator `2^i·5^j`; for a double
whose value is such a fraction, the shortest round-tripping representation is
the exact decimal, which is what this produces). -/
def jsNumToString : JSNum → List Char
  | .nan => "NaN".data
  | .inf => "Infinity".data
  | .ninf => "-Infinity".data
  | .fin q =>
    if q = 0 then ['0']
    else
      let neg := q < 0
      let a := |q|
      let k := max (countFactor 64 2 a.den) (countFactor 64 5 a.den)
      let M := (a * 10 ^ k).num.toNat
      let t := countFactor 64 10 M
      let s := M / 10 ^ t
      let ds := renderNat s
      let kk := ds.length
      let npar : ℤ := (kk : ℤ) + t - k
      let body :=
        if (kk : ℤ) ≤ npar ∧ npar ≤ 21 then ds ++ List.replicate (npar - kk).toNat '0'
        else if 0 < npar ∧ npar ≤ 21 then ds.take npar.toNat ++ '.' :: ds.drop npar.toNat
        else if -6 < npar ∧ npar ≤ 0 then
          '0' :: '.' :: (List.replicate (-npar).toNat '0' ++ ds)
        else
          let ex := npar - 1
          let mant :=
            match ds with
            | [c] => [c]
            | c :: rest => c :: '.' :: rest
            | [] => ['0']
          mant ++ 'e' :: (if ex < 0 then '-' else '+') :: renderNat ex.natAbs
      if neg then '-' :: body else body

/-! ## `js/utils.js` — `Utils` -/

namespace Utils

/-- Group a digit run in threes from the right, inserting `,`.
`group3Rev` walks the reversed character list with a countdown. -/
def group3Rev : ℕ → List Char → List Char
  | _, [] => []
  | 0, c :: cs => ',' :: c :: group3Rev 2 cs
  | k + 1, c :: cs => c :: group3Rev k cs

/-- Insert thousands separators into one numeral (handling a leading sign,
which the source regex's word-boundary `\B` keeps comma-free). -/
def sepIntPart (cs : List Char) : List Char :=
  match cs with
  | c :: rest =>
    if c = '-' then '-' :: (group3Rev 3 rest.reverse).reverse
    else (group3Rev 3 (c :: rest).reverse).reverse
  | [] => []

/-- `Utils.addThousandsSeparator`: split on the first `.`, insert commas into
the integer part, leave the decimal part untouched. -/
def addThousandsSeparator (numStr : String) : String :=
  let cs := numStr.data
  let intPart := cs.takeWhile (· ≠ '.')
  let rest := cs.dropWhile (· ≠ '.')
  ⟨sepIntPart intPart ++ rest⟩

/-- `Utils.removeThousandsSeparator`: strip every comma. -/
def removeThousandsSeparator (numStr : String) : String :=
  ⟨numStr.data.filter (· ≠ ',')⟩

/-- `Utils.formatNumber` (with its default `maxDecimals = 10`, the only form
the calculator uses).  `typeof num !== 'number'` → `'Error'`. -/
def formatNumber (num : JSVal) : String :=
  match num with
  | .nonNum => "Error"
  | .num .nan => "Error"
  | .num .inf => "Infinity"
  | .num .ninf => "-Infinity"
  | .num (.fin q) =>
    if (10:ℚ) ^ 15 ≤ |q| then ⟨toExponential6 q⟩
    else if |q| < 1 / (10:ℚ) ^ 10 ∧ q ≠ 0 then ⟨toExponential6 q⟩
    else
      let formatted : String := ⟨jsNumToString (parseFloatChars (toFixedChars q 10))⟩
      if (1000:ℚ) ≤ |q| then addThousandsSeparator formatted else formatted

/-- `Utils.toNumber`: strip separators, `parseFloat`. -/
def toNumber (str : String) : JSNum :=
  parseFloatChars (removeThousandsSeparator str).data

end Utils

/-! ## `js/operations.js` — `Operations` -/

namespace Operations

/-- `Operations.add`. -/
def add (a b : JSNum) : JSNum := jsAdd a b

/-- `Operations.subtract`. -/
def subtract (a b : JSNum) : JSNum := jsSub a b

/-- `Operations.multiply`. -/
def multiply (a b : JSNum) : JSNum := jsMul a b

/-- `Operations.divide`: explicit `b === 0` handling, otherwise `a / b`. -/
def divide (a b : JSNum) : CalcResult :=
  if b = .fin 0 then
    if a = .fin 0 then .str "Error"
    else if a.gtZero then .num .inf else .num .ninf
  else .num (jsDiv a b)

/-- `Operations.percentage`: `value / 100`. -/
def percentage (value : JSNum) : JSNum := jsDiv value (.fin 100)

/-- `Operations.sqrt` is not modelled numerically (unused by the calculator
state machine); `Operations.reciprocal`. -/
def reciprocal (value : JSNum) : CalcResult :=
  if value = .fin 0 then .str "Error" else .num (jsDiv (.fin 1) value)

/-- `Operations.abs`. -/
def abs : JSNum → JSNum
  | .nan => .nan
  | .inf => .inf
  | .ninf => .inf
  | .fin q => .fin |q|

/-- `Operations.negate`. -/
def negate (value : JSNum) : JSNum := jsNeg value

/-- `Number.EPSILON`, exactly `2⁻⁵²`. -/
def machineEpsilon : ℚ := 1 / 2 ^ 52

/-- `Operations.fixPrecision` with its default `precision = 15` (the only
form `calculate` uses): collapse below `Number.EPSILON` to `0`, otherwise
`Math.round(value * 10^15) / 10^15`. -/
def fixPrecision (value : ℚ) : ℚ :=
  if |value| < machineEpsilon then 0
  else (jsRound (value * 10 ^ 15) : ℚ) / 10 ^ 15

/-- JS `Number(s)` coercion for the strings that can appear as intermediate
results here (`'Error'` from `divide`; the general rule: the full string must
be numeric, else NaN). -/
def jsNumberOfString (s : String) : JSNum :=
  if s = "" then .fin 0
  else if s = "Infinity" ∨ s = "+Infinity" then .inf
  else if s = "-Infinity" then .ninf
  else .nan  -- the only non-numeral string reaching a coercion is "Error"

/-- Coerce an intermediate `number|string` result to a number, as JS's
`isNaN(result)` / `isFinite(result)` / `result > 0` do. -/
def coerceResult : CalcResult → JSNum
  | .num x => x
  | .str s => jsNumberOfString s

/-- The tail of `Operations.calculate` after the operator switch: NaN → the
`'Error'` sentinel; non-finite → signed `'Infinity'` sentinel; finite →
`fixPrecision`. -/
def finishCalc (result : CalcResult) : CalcResult :=
  if (coerceResult result).isNaNb then .str "Error"
  else if ¬ (coerceResult result).isFiniteb then
    (if (coerceResult result).gtZero then .str "Infinity" else .str "-Infinity")
  else
    match result with
    | .num (.fin q) => .num (.fin (fixPrecision q))
    | .str _ => .num (coerceResult result)  -- unreachable: a surviving string is non-finite
    | r => r

/-- `Operations.calculate(a, b, operator)`: reject non-numbers and NaN up
front, dispatch on the operator string (unknown operator → `'Error'`), then
post-process the raw result. -/
def calculate (a b : JSVal) (operator : String) : CalcResult :=
  match a, b with
  | .nonNum, _ => .str "Error"
  | _, .nonNum => .str "Error"
  | .num x, .num y =>
    if x.isNaNb || y.isNaNb then .str "Error"
    else if operator = "+" then finishCalc (.num (add x y))
    else if operator = "-" then finishCalc (.num (subtract x y))
    else if operator = "×" ∨ operator = "*" then finishCalc (.num (multiply x y))
    else if operator = "÷" ∨ operator = "/" then finishCalc (divide x y)
    else .str "Error"

/-- `Operations.isValidResult`. -/
def isValidResult : CalcResult → Bool
  | .str s => s = "Error" ∨ s = "Infinity" ∨ s = "-Infinity"
  | .num x => ¬ x.isNaNb

/-- `Operations.formatOperation` (binary and unary forms; `a` and `b` are
numbers at every call site). -/
def formatOperation (a : JSNum) (operator : String) (b : Option JSNum := none) : String :=
  let formattedA := Utils.formatNumber (.num a)
  match b with
  | none =>
    if operator = "sqrt" then "√" ++ formattedA
    else if operator = "reciprocal" then "1/" ++ formattedA
    else if operator = "negate" then "-" ++ formattedA
    else if operator = "percentage" then formattedA ++ "%"
    else formattedA
  | some bb =>
    formattedA ++ " " ++ operator ++ " " ++ Utils.formatNumber (.num bb)

end Operations

/-! ## `js/operations.js` — `MemoryOperations` -/

/-- One calculation-history entry.  The source stamps
`new Date().toISOString()`; wall-clock time is environmental and is modelled
as the empty string. -/
structure HistoryEntry where
  timestamp : String
  operation : String
  result : CalcResult
deriving DecidableEq, Repr

/-- The `MemoryOperations` instance state: one numeric accumulator and the
history list (newest first). -/
structure MemoryState where
  memory : JSNum
  history : List HistoryEntry
deriving DecidableEq, Repr

namespace MemoryOperations

/-- The constructor: `memory = 0`, empty history. -/
def initial : MemoryState := ⟨.fin 0, []⟩

/-- `store(value)`: only `typeof value === 'number' && !isNaN(value)` stores. -/
def store (m : MemoryState) (value : JSVal) : MemoryState :=
  match value with
  | .num x => if ¬ x.isNaNb then { m with memory := x } else m
  | .nonNum => m

/-- `recall()` (named with guillemets because `recall` is reserved here). -/
def «recall» (m : MemoryState) : JSNum := m.memory

/-- `clear()` (memory clear). -/
def clear (m : MemoryState) : MemoryState := { m with memory := .fin 0 }

/-- `add(value)`. -/
def add (m : MemoryState) (value : JSVal) : MemoryState :=
  match value with
  | .num x => if ¬ x.isNaNb then { m with memory := jsAdd m.memory x } else m
  | .nonNum => m

/-- `subtract(value)`. -/
def subtract (m : MemoryState) (value : JSVal) : MemoryState :=
  match value with
  | .num x => if ¬ x.isNaNb then { m with memory := jsSub m.memory x } else m
  | .nonNum => m

/-- `hasValue()`. -/
def hasValue (m : MemoryState) : Bool := m.memory ≠ .fin 0

/-- `addToHistory(operation, result)`: prepend, trim to 100. -/
def addToHistory (m : MemoryState) (operation : String) (result : CalcResult) : MemoryState :=
  let entry : HistoryEntry := ⟨"", operation, result⟩
  let h := entry :: m.history
  { m with history := if 100 < h.length then h.take 100 else h }

/-- `getHistory(limit = 10)`. -/
def getHistory (m : MemoryState) (limit : ℕ := 10) : List HistoryEntry :=
  m.history.take limit

/-- `clearHistory()`. -/
def clearHistory (m : MemoryState) : MemoryState := { m with history := [] }

end MemoryOperations

/-! ## `js/display.js` — `Display` -/

/-- The `Display` instance state: the raw current value string, the
expression line, and the error flag.  (The DOM `input.value` is a derived
view, see `Display.displayText`.) -/
structure DisplaySt where
  currentValue : String
  expression : String
  isError : Bool
deriving DecidableEq, Repr

namespace Display

/-- `updateDisplay(value)`: empty string (the only falsy string value here)
becomes `'0'`; the error flag tracks whether the stored value is one of the
three sentinels.  `this.currentValue` keeps the full string; only the DOM
view is shortened. -/
def updateDisplay (d : DisplaySt) (value : String) : DisplaySt :=
  let v := if value = "" then "0" else value
  { d with
    currentValue := v
    isError := v = "Error" ∨ v = "Infinity" ∨ v = "-Infinity" }

/-- The string put into the DOM input: values longer than 15 characters
without an `e` are re-rendered in exponential notation. -/
def displayText (d : DisplaySt) : String :=
  if 15 < d.currentValue.length ∧ ¬ d.currentValue.data.contains 'e' then
    match parseFloatChars d.currentValue.data with
    | .fin q => ⟨toExponential6 q⟩
    | x => ⟨jsNumToString x⟩
  else d.currentValue

/-- `updateExpression(expr)`. -/
def updateExpression (d : DisplaySt) (expr : String) : DisplaySt :=
  { d with expression := expr }

/-- `appendDigit(digit)`: clear a pending error first; replace a bare `0`;
refuse a second decimal point; refuse past 15 characters. -/
def appendDigit (d : DisplaySt) (digit : String) : DisplaySt :=
  let d := if d.isError then { d with isError := false, currentValue := "0" } else d
  if d.currentValue = "0" ∧ digit ≠ "." then updateDisplay d digit
  else if digit = "." ∧ d.currentValue.data.contains '.' then d
  else if 15 ≤ d.currentValue.length then d
  else updateDisplay d (d.currentValue ++ digit)

/-- `getCurrentValue()`: `0` in an error state, otherwise parse. -/
def getCurrentValue (d : DisplaySt) : JSNum :=
  if d.isError then .fin 0 else Utils.toNumber d.currentValue

/-- `clear()`. -/
def clear (_d : DisplaySt) : DisplaySt :=
  updateExpression
    (updateDisplay { currentValue := "0", expression := "", isError := false } "0") ""

/-- `deleteLast()`: in an error state act as `clear`; otherwise drop the last
character, or show `0` when at most one character remains. -/
def deleteLast (d : DisplaySt) : DisplaySt :=
  if d.isError then clear d
  else if 1 < d.currentValue.length then updateDisplay d ⟨d.currentValue.data.dropLast⟩
  else updateDisplay d "0"

/-- `hasDecimal()`. -/
def hasDecimal (d : DisplaySt) : Bool := d.currentValue.data.contains '.'

/-- `isShowingZero()`. -/
def isShowingZero (d : DisplaySt) : Bool := d.currentValue = "0"

/-- `showResult(result, operation = '')`. -/
def showResult (d : DisplaySt) (result : CalcResult) (operation : String := "") : DisplaySt :=
  let d :=
    if Operations.isValidResult result then
      match result with
      | .num x => updateDisplay d (Utils.formatNumber (.num x))
      | .str s => updateDisplay d s
    else updateDisplay d "Error"
  if operation ≠ "" then updateExpression d (operation ++ " =") else d

/-- `showAsPercentage()`. -/
def showAsPercentage (d : DisplaySt) : DisplaySt :=
  let value := getCurrentValue d
  let pct := Operations.percentage value
  updateExpression (updateDisplay d (Utils.formatNumber (.num pct)))
    (Utils.formatNumber (.num value) ++ "%")

/-- The constructor / `init()`: display `'0'`, empty expression. -/
def initial : DisplaySt :=
  updateExpression (updateDisplay { currentValue := "0", expression := "", isError := false } "0") ""

end Display

/-! ## `js/calculator.js` — `Calculator` -/

/-- The whole calculator: display, memory, and the `this.state` fields. -/
structure CalcSt where
  display : DisplaySt
  memory : MemoryState
  previousValue : Option JSNum
  currentOperator : Option String
  waitingForOperand : Bool
  lastOperation : Option (String × JSNum)
  justCalculated : Bool
deriving DecidableEq, Repr

namespace Calculator

/-- The constructor's initial state. -/
def initial : CalcSt :=
  { display := Display.initial
    memory := MemoryOperations.initial
    previousValue := none
    currentOperator := none
    waitingForOperand := false
    lastOperation := none
    justCalculated := false }

/-- JS truthiness of the nullable operator string (`null` and `''` falsy). -/
def opTruthy : Option String → Bool
  | none => false
  | some s => s ≠ ""

/-- The nullable `previousValue` as seen by `Utils.formatNumber`
(`null` has `typeof ≠ 'number'`). -/
def prevVal : Option JSNum → JSVal
  | none => .nonNum
  | some x => .num x

/-- `inputNumber(digit)`. -/
def inputNumber (s : CalcSt) (digit : String) : CalcSt :=
  if s.waitingForOperand then
    { s with
      display := Display.updateDisplay s.display digit
      waitingForOperand := false
      justCalculated := false }
  else
    let s :=
      if s.justCalculated then
        { s with display := Display.clear s.display, justCalculated := false }
      else s
    { s with display := Display.appendDigit s.display digit }

/-- `Calculator.calculate()`: `null`-check (not truthiness) on
`previousValue`/`currentOperator`; otherwise run `Operations.calculate`,
record the operation in history, and return the numeric result or `null`. -/
def calculate (s : CalcSt) : Option JSNum × CalcSt :=
  let currentValue := Display.getCurrentValue s.display
  match s.previousValue, s.currentOperator with
  | some previousValue, some operator =>
    let result := Operations.calculate (.num previousValue) (.num currentValue) operator
    let operation := Operations.formatOperation previousValue operator (some currentValue)
    let s := { s with memory := MemoryOperations.addToHistory s.memory operation result }
    (match result with | .num x => some x | .str _ => none, s)
  | _, _ => (some currentValue, s)

/-- `inputOperator(operator)`. -/
def inputOperator (s : CalcSt) (operator : String) : CalcSt :=
  let currentValue := Display.getCurrentValue s.display
  let s :=
    if s.previousValue = none then { s with previousValue := some currentValue }
    else if opTruthy s.currentOperator ∧ ¬ s.waitingForOperand then
      let rs := calculate s
      match rs.1 with
      | some result =>
        { rs.2 with
          display := Display.updateDisplay rs.2.display (Utils.formatNumber (.num result))
          previousValue := some result }
      | none => rs.2
    else { s with previousValue := some currentValue }
  let s :=
    { s with currentOperator := some operator, waitingForOperand := true, justCalculated := false }
  let expression := Utils.formatNumber (prevVal s.previousValue) ++ " " ++ operator
  { s with display := Display.updateExpression s.display expression }

/-- `resetState()` (does not touch `justCalculated`). -/
def resetState (s : CalcSt) : CalcSt :=
  { s with
    previousValue := none
    currentOperator := none
    waitingForOperand := false
    lastOperation := none }

/-- `equals()`. -/
def equals (s : CalcSt) : CalcSt :=
  match s.currentOperator, s.previousValue with
  | some op, some prev =>
    if op ≠ "" then
      let rs := calculate s
      match rs.1 with
      | some result =>
        let s1 := rs.2
        let operation :=
          Operations.formatOperation prev op (some (Display.getCurrentValue s1.display))
        let s2 := { s1 with display := Display.showResult s1.display (.num result) operation }
        let s3 :=
          { s2 with lastOperation := some (op, Display.getCurrentValue s2.display) }
        { resetState s3 with justCalculated := true }
      | none =>
        let s2 := { rs.2 with display := Display.showResult rs.2.display (.str "Error") }
        resetState s2
    else s
  | _, _ => s

/-- `clear()` (calculator): clear the display, reset the state fields;
memory and history are untouched, and so is `justCalculated`. -/
def clear (s : CalcSt) : CalcSt :=
  resetState { s with display := Display.clear s.display }

/-- `delete()`. -/
def delete (s : CalcSt) : CalcSt :=
  if ¬ s.waitingForOperand then { s with display := Display.deleteLast s.display } else s

/-- `inputDecimal()`. -/
def inputDecimal (s : CalcSt) : CalcSt :=
  if s.waitingForOperand then
    { s with display := Display.updateDisplay s.display "0.", waitingForOperand := false }
  else if ¬ Display.hasDecimal s.display then
    { s with display := Display.appendDigit s.display "." }
  else s

/-- `percentage()`. -/
def percentage (s : CalcSt) : CalcSt :=
  { s with display := Display.showAsPercentage s.display, justCalculated := true }

end Calculator

/-- One user event, as routed by `handleButtonClick` / `performAction`. -/
inductive Event where
  | digit (d : String)
  | oper (op : String)
  | decimal
  | equalsKey
  | clearKey
  | deleteKey
  | percentKey
deriving DecidableEq, Repr

/-- The transition of one user event. -/
def step (s : CalcSt) : Event → CalcSt
  | .digit d => Calculator.inputNumber s d
  | .oper op => Calculator.inputOperator s op
  | .decimal => Calculator.inputDecimal s
  | .equalsKey => Calculator.equals s
  | .clearKey => Calculator.clear s
  | .deleteKey => Calculator.delete s
  | .percentKey => Calculator.percentage s

/-- Run a sequence of user events from the initial state. -/
def run (events : List Event) : CalcSt :=
  events.foldl step Calculator.initial

/-! ## Auxiliary definitions for the specification statements -/

/-- The history entry recorded for an (operation, result) pair. -/
def historyEntryOf (p : String × CalcResult) : HistoryEntry := ⟨"", p.1, p.2⟩

/-- Record a list of (operation, result) pairs in order via
`MemoryOperations.addToHistory`. -/
def MemoryOperations.recordAll (m : MemoryState) (ops : List (String × CalcResult)) : MemoryState :=
  ops.foldl (fun m p => MemoryOperations.addToHistory m p.1 p.2) m

/-- Modelled from the spec: "the result is rounded to 15 significant decimal
digits" — rounding a value to 15 significant digits (scale so that the
leading digit sits in the `10^14` place, round half away from zero, scale
back).  This is the spec's description, to be compared with the source's
`Operations.fixPrecision`. -/
def specRound15SigDigits (q : ℚ) : ℚ :=
  if q = 0 then 0
  else
    let e := decExp |q|
    let sc : ℤ := 14 - e
    let r : ℚ := (jsRound (|q| * tenPowZ sc) : ℚ) / tenPowZ sc
    if q < 0 then -r else r

/-! ## Theorems -/

/-! ### History bounds and ordering -/

theorem addToHistory_history (m : MemoryState) (op : String) (res : CalcResult) :
    (MemoryOperations.addToHistory m op res).history =
      (historyEntryOf (op, res) :: m.history).take 100 := by
  simp only [MemoryOperations.addToHistory, historyEntryOf]
  split
  · rfl
  · next h => exact (List.take_of_length_le (by omega)).symm

theorem take_append_take {α : Type} (n m : ℕ) (X Y : List α) (h : n ≤ m) :
    (X ++ Y.take m).take n = (X ++ Y).take n := by
  induction X generalizing n with
  | nil => simp [List.take_take, Nat.min_eq_left h]
  | cons x X ih =>
    cases n with
    | zero => simp
    | succ n => simp [List.take_succ_cons, ih n (Nat.le_of_succ_le h)]

theorem recordAll_history (ops : List (String × CalcResult)) :
    ∀ m : MemoryState, m.history.length ≤ 100 →
      (MemoryOperations.recordAll m ops).history =
        ((ops.map historyEntryOf).reverse ++ m.history).take 100 := by
  induction ops with
  | nil =>
    intro m hm
    simp only [MemoryOperations.recordAll, List.foldl_nil, List.map_nil, List.reverse_nil,
      List.nil_append]
    exact (List.take_of_length_le hm).symm
  | cons p ops ih =>
    intro m hm
    have hstep : (MemoryOperations.addToHistory m p.1 p.2).history =
        (historyEntryOf (p.1, p.2) :: m.history).take 100 := addToHistory_history m p.1 p.2
    have hlen : (MemoryOperations.addToHistory m p.1 p.2).history.length ≤ 100 := by
      rw [hstep]; simp
    have := ih (MemoryOperations.addToHistory m p.1 p.2) hlen
    rw [MemoryOperations.recordAll] at *
    simp only [List.foldl_cons] at *
    rw [this, hstep, take_append_take _ _ _ _ (le_refl 100)]
    simp [List.append_assoc]

/-- C7: for every sequence of `addToHistory` calls the history never exceeds
100 entries; the list kept is exactly the newest 100, in most-recent-first
order (so a 101st entry evicts the oldest); and `getHistory limit` returns
the most-recent-first prefix of that list. -/
theorem history_bounded_ordered (ops : List (String × CalcResult)) (limit : ℕ) :
    (MemoryOperations.recordAll MemoryOperations.initial ops).history.length ≤ 100
    ∧ (MemoryOperations.recordAll MemoryOperations.initial ops).history =
        (ops.map historyEntryOf).reverse.take 100
    ∧ MemoryOperations.getHistory (MemoryOperations.recordAll MemoryOperations.initial ops) limit =
        (ops.map historyEntryOf).reverse.take (min limit 100) := by
  have h := recordAll_history ops MemoryOperations.initial (by simp [MemoryOperations.initial])
  rw [show MemoryOperations.initial.history = [] from rfl, List.append_nil] at h
  refine ⟨?_, h, ?_⟩
  · rw [h]; simp
  · simp [MemoryOperations.getHistory, h, List.take_take]

/-! ### Error-state display reads -/

/-- C10: a display updated with any of the three sentinel strings is in the
error state and `getCurrentValue` reads it as the number `0`; consequently an
operator press right after the `0 ÷ 0 =` error captures `previousValue = 0`
while the display still shows `Error`. -/
theorem error_display_reads_zero :
    (∀ (d : DisplaySt) (v : String),
      (v = "Error" ∨ v = "Infinity" ∨ v = "-Infinity") →
        (Display.updateDisplay d v).isError = true
        ∧ Display.getCurrentValue (Display.updateDisplay d v) = .fin 0)
    ∧ (run [.oper "÷", .digit "0", .equalsKey, .oper "+"]).previousValue = some (.fin 0)
    ∧ (run [.oper "÷", .digit "0", .equalsKey, .oper "+"]).display.currentValue = "Error" := by
  refine ⟨?_, by decide!, by decide!⟩
  intro d v hv
  rcases hv with h | h | h <;> subst h <;>
    simp [Display.updateDisplay, Display.getCurrentValue]

theorem error_display_reads_zero_wit :
    (Display.updateDisplay Display.initial "Error").isError = true
    ∧ Display.getCurrentValue (Display.updateDisplay Display.initial "Error") = .fin 0 :=
  error_display_reads_zero.1 Display.initial "Error" (Or.inl rfl)

/-! ### Division by zero -/

/-- C4: dividing by zero yields the `Error` sentinel exactly for a zero
dividend and otherwise the infinity sentinel matching the sign of the
dividend, both at the `Operations.divide` level and through
`Operations.calculate`; the three cases are exhaustive for every dividend
that is an actual number (not NaN). -/
theorem divide_by_zero_signed (a : JSNum) (h : a ≠ .nan) :
    (a = .fin 0 →
      Operations.divide a (.fin 0) = .str "Error"
      ∧ Operations.calculate (.num a) (.num (.fin 0)) "÷" = .str "Error")
    ∧ (a.gtZero = true →
      Operations.divide a (.fin 0) = .num .inf
      ∧ Operations.calculate (.num a) (.num (.fin 0)) "÷" = .str "Infinity")
    ∧ (a.ltZero = true →
      Operations.divide a (.fin 0) = .num .ninf
      ∧ Operations.calculate (.num a) (.num (.fin 0)) "÷" = .str "-Infinity")
    ∧ (a.gtZero = true ∨ a.ltZero = true ∨ a = .fin 0) := by
  cases a with
  | nan => exact absurd rfl h
  | inf =>
    refine ⟨?_, fun _ => by decide!, ?_, Or.inl rfl⟩
    · intro h0; cases h0
    · intro hlt; cases hlt
  | ninf =>
    refine ⟨?_, ?_, fun _ => by decide!, Or.inr (Or.inl rfl)⟩
    · intro h0; cases h0
    · intro hgt; cases hgt
  | fin q =>
    rcases lt_trichotomy q 0 with hq | hq | hq
    · refine ⟨?_, ?_, fun _ => ⟨?_, ?_⟩, Or.inr (Or.inl (by simp [JSNum.ltZero, hq]))⟩
      · intro h0
        simp only [JSNum.fin.injEq] at h0
        exact absurd h0 (ne_of_lt hq)
      · intro hgt
        simp only [JSNum.gtZero, decide_eq_true_eq] at hgt
        exact absurd hgt (not_lt.mpr (le_of_lt hq))
      · simp [Operations.divide, JSNum.gtZero, not_lt.mpr (le_of_lt hq), ne_of_lt hq]
      · simp [Operations.calculate, JSNum.isNaNb, Operations.divide, JSNum.gtZero,
          not_lt.mpr (le_of_lt hq), ne_of_lt hq, Operations.finishCalc,
          Operations.coerceResult, JSNum.isFiniteb]
    · subst hq
      refine ⟨fun _ => ⟨by decide!, by decide!⟩, ?_, ?_, Or.inr (Or.inr rfl)⟩
      · intro hgt; simp [JSNum.gtZero] at hgt
      · intro hlt; simp [JSNum.ltZero] at hlt
    · refine ⟨?_, fun _ => ⟨?_, ?_⟩, ?_, Or.inl (by simp [JSNum.gtZero, hq])⟩
      · intro h0
        simp only [JSNum.fin.injEq] at h0
        exact absurd h0 (ne_of_gt hq)
      · simp [Operations.divide, JSNum.gtZero, hq, ne_of_gt hq]
      · simp [Operations.calculate, JSNum.isNaNb, Operations.divide, JSNum.gtZero, hq,
          ne_of_gt hq, Operations.finishCalc, Operations.coerceResult, JSNum.isFiniteb]
      · intro hlt
        simp only [JSNum.ltZero, decide_eq_true_eq] at hlt
        exact absurd hlt (not_lt.mpr (le_of_lt hq))

theorem divide_by_zero_signed_wit :
    (Operations.divide (.fin 5) (.fin 0) = .num .inf
      ∧ Operations.calculate (.num (.fin 5)) (.num (.fin 0)) "÷" = .str "Infinity")
    ∧ (Operations.divide (.fin 0) (.fin 0) = .str "Error"
      ∧ Operations.calculate (.num (.fin 0)) (.num (.fin 0)) "÷" = .str "Error") :=
  ⟨(divide_by_zero_signed (.fin 5) (by decide)).2.1 (by decide),
   (divide_by_zero_signed (.fin 0) (by decide)).1 rfl⟩

/-! ### Up-front operand validation in `calculate` -/

/-- C2 (amended): `Operations.calculate` rejects non-numeric operands and NaN
operands up front with the `Error` sentinel; infinite operands are *not*
rejected — the operation is carried out and a non-finite outcome surfaces as
the signed `Infinity` sentinel instead. -/
theorem calculate_rejects_nonnumeric_nan :
    (∀ (v : JSVal) (op : String),
      Operations.calculate .nonNum v op = .str "Error"
      ∧ Operations.calculate v .nonNum op = .str "Error")
    ∧ (∀ (x : JSNum) (op : String),
      Operations.calculate (.num .nan) (.num x) op = .str "Error"
      ∧ Operations.calculate (.num x) (.num .nan) op = .str "Error")
    ∧ (∀ q : ℚ, Operations.calculate (.num .inf) (.num (.fin q)) "+" = .str "Infinity") := by
  refine ⟨?_, ?_, ?_⟩
  · intro v op
    cases v <;> exact ⟨rfl, rfl⟩
  · intro x op
    constructor
    · simp [Operations.calculate, JSNum.isNaNb]
    · cases x <;> simp [Operations.calculate, JSNum.isNaNb]
  · intro q
    simp [Operations.calculate, JSNum.isNaNb, jsAdd, Operations.add, Operations.finishCalc,
      Operations.coerceResult, JSNum.isFiniteb, JSNum.gtZero]

/-- C2 counterexample: an infinite operand is not rejected up front — the
claim demands `Error`, but `calculate(Infinity, 1, '+')` returns the
`Infinity` sentinel. -/
theorem calculate_infinite_operand_cex :
    Operations.calculate (.num .inf) (.num (.fin 1)) "+" = .str "Infinity"
    ∧ Operations.calculate (.num .inf) (.num (.fin 1)) "+" ≠ .str "Error" := by
  constructor <;> decide!

/-! ### Memory mutator input filtering -/

/-- C6 (amended): the memory mutators ignore non-numeric and NaN input as
silent no-ops, but any actual number — including `±Infinity` — passes the
`typeof value === 'number' && !isNaN(value)` guard and mutates the
accumulator. -/
theorem memory_mutators_guard :
    (∀ m : MemoryState,
      MemoryOperations.store m .nonNum = m
      ∧ MemoryOperations.add m .nonNum = m
      ∧ MemoryOperations.subtract m .nonNum = m
      ∧ MemoryOperations.store m (.num .nan) = m
      ∧ MemoryOperations.add m (.num .nan) = m
      ∧ MemoryOperations.subtract m (.num .nan) = m)
    ∧ (∀ (m : MemoryState) (x : JSNum), x.isNaNb = false →
      (MemoryOperations.store m (.num x)).memory = x
      ∧ (MemoryOperations.add m (.num x)).memory = jsAdd m.memory x
      ∧ (MemoryOperations.subtract m (.num x)).memory = jsSub m.memory x) := by
  constructor
  · intro m
    refine ⟨rfl, rfl, rfl, ?_, ?_, ?_⟩ <;>
      simp [MemoryOperations.store, MemoryOperations.add, MemoryOperations.subtract,
        JSNum.isNaNb]
  · intro m x hx
    refine ⟨?_, ?_, ?_⟩ <;>
      simp [MemoryOperations.store, MemoryOperations.add, MemoryOperations.subtract, hx]

theorem memory_mutators_guard_wit :
    (MemoryOperations.store MemoryOperations.initial (.num .inf)).memory = .inf
    ∧ (MemoryOperations.add MemoryOperations.initial (.num .inf)).memory =
        jsAdd MemoryOperations.initial.memory .inf
    ∧ (MemoryOperations.subtract MemoryOperations.initial (.num .inf)).memory =
        jsSub MemoryOperations.initial.memory .inf :=
  memory_mutators_guard.2 MemoryOperations.initial .inf rfl

/-- C6 counterexample: `store(Infinity)` is not a no-op — it overwrites the
accumulator (initially `0`) with `Infinity`. -/
theorem memory_store_infinity_cex :
    (MemoryOperations.store MemoryOperations.initial (.num .inf)).memory = .inf
    ∧ MemoryOperations.initial.memory = .fin 0
    ∧ JSNum.inf ≠ .fin 0 := by
  refine ⟨rfl, rfl, by decide⟩

/-! ### Precision fixing -/

/-- C3 (amended): a binary-operation result of magnitude below
`Number.EPSILON` collapses to exactly `0`; any other result is rounded to 15
*decimal places* — the nearest multiple of `10⁻¹⁵` — (not 15 significant
digits); and `0.1 + 0.2` evaluates to exactly `0.3`, which formats as the
string `"0.3"`. -/
theorem fixPrecision_decimal_places (v : ℚ) :
    (|v| < Operations.machineEpsilon → Operations.fixPrecision v = 0)
    ∧ (Operations.machineEpsilon ≤ |v| →
        (∃ m : ℤ, Operations.fixPrecision v = (m : ℚ) / 10 ^ 15)
        ∧ |Operations.fixPrecision v - v| ≤ 1 / (2 * 10 ^ 15))
    ∧ Operations.calculate (.num (.fin (1/10))) (.num (.fin (2/10))) "+" = .num (.fin (3/10))
    ∧ Utils.formatNumber (.num (.fin (3/10))) = "0.3" := by
  refine ⟨?_, ?_, by decide!, by decide!⟩
  · intro h
    simp [Operations.fixPrecision, h]
  · intro h
    have hnot : ¬ |v| < Operations.machineEpsilon := not_lt.mpr h
    rw [Operations.fixPrecision, if_neg hnot]
    set y : ℚ := v * 10 ^ 15 with hy
    refine ⟨⟨jsRound y, rfl⟩, ?_⟩
    have h1 : ((jsRound y : ℤ) : ℚ) ≤ y + 1/2 := Int.floor_le _
    have h2 : y + 1/2 < (jsRound y : ℤ) + 1 := Int.lt_floor_add_one _
    have hv : v = y / 10 ^ 15 := by rw [hy]; ring
    have hstep : ((jsRound y : ℤ) : ℚ) / 10 ^ 15 - v = (((jsRound y : ℤ) : ℚ) - y) / 10 ^ 15 := by
      rw [hv]; ring
    rw [hstep, abs_div, abs_of_pos (by positivity : (0:ℚ) < 10 ^ 15)]
    have habs : |((jsRound y : ℤ) : ℚ) - y| ≤ 1/2 := by
      rw [abs_le]
      constructor <;> linarith
    calc |((jsRound y : ℤ) : ℚ) - y| / 10 ^ 15 ≤ (1/2) / 10 ^ 15 := by gcongr
      _ = 1 / (2 * 10 ^ 15) := by ring

theorem fixPrecision_decimal_places_wit :
    Operations.fixPrecision (1 / 2 ^ 53) = 0
    ∧ ((∃ m : ℤ, Operations.fixPrecision 1 = (m : ℚ) / 10 ^ 15)
        ∧ |Operations.fixPrecision 1 - 1| ≤ 1 / (2 * 10 ^ 15)) :=
  ⟨(fixPrecision_decimal_places (1 / 2 ^ 53)).1
      (by rw [Operations.machineEpsilon]; rw [abs_of_pos (by positivity)]; norm_num),
   (fixPrecision_decimal_places 1).2.1
      (by rw [Operations.machineEpsilon]; rw [abs_of_pos (by positivity)]; norm_num)⟩

/-- C3 counterexample: the result `123456789.1234567890 + 0.0000000001 =
123456789.1234567891` (19 significant digits, 10 decimal places) is returned
by `calculate` exactly as is — it is *not* rounded to 15 significant decimal
digits, which would give `123456789.123457`. -/
theorem fixPrecision_sig_digits_cex :
    Operations.calculate (.num (.fin (1234567891234567890 / 10 ^ 10)))
        (.num (.fin (1 / 10 ^ 10))) "+"
      = .num (.fin (1234567891234567891 / 10 ^ 10))
    ∧ specRound15SigDigits (1234567891234567891 / 10 ^ 10) = 123456789123457 / 10 ^ 6
    ∧ (1234567891234567891 / 10 ^ 10 : ℚ) ≠ 123456789123457 / 10 ^ 6 := by
  refine ⟨by decide!, by decide!, by decide!⟩

/-! ### Delete -/

/-- C5 (amended): `delete()` is a no-op whenever `waitingForOperand` is true
— even when the display shows an error; with `waitingForOperand` false it
clears the *display* (value `0`, expression cleared, error flag reset) when
the display is in an error state, leaving the pending-operator state fields
untouched, and otherwise drops the last character, showing `0` when at most
one character remains. -/
theorem delete_branches (s : CalcSt) :
    (s.waitingForOperand = true → step s .deleteKey = s)
    ∧ (s.waitingForOperand = false → s.display.isError = true →
        (step s .deleteKey).display.currentValue = "0"
        ∧ (step s .deleteKey).display.expression = ""
        ∧ (step s .deleteKey).display.isError = false
        ∧ (step s .deleteKey).previousValue = s.previousValue
        ∧ (step s .deleteKey).currentOperator = s.currentOperator
        ∧ (step s .deleteKey).waitingForOperand = false
        ∧ (step s .deleteKey).memory = s.memory)
    ∧ (s.waitingForOperand = false → s.display.isError = false →
        (step s .deleteKey).display.currentValue =
          (if 1 < s.display.currentValue.length
            then (⟨s.display.currentValue.data.dropLast⟩ : String) else "0")) := by
  refine ⟨?_, ?_, ?_⟩
  · intro hw
    simp [step, Calculator.delete, hw]
  · intro hw herr
    simp [step, Calculator.delete, hw, Display.deleteLast, herr, Display.clear,
      Display.updateDisplay, Display.updateExpression]
  · intro hw herr
    simp only [step, Calculator.delete, hw, Bool.false_eq_true, not_false_eq_true, if_true,
      Display.deleteLast, herr, if_false]
    split
    · next hlen =>
      have hne : (⟨s.display.currentValue.data.dropLast⟩ : String) ≠ "" := by
        intro hcon
        have : s.display.currentValue.data.dropLast = [] := congrArg String.data hcon
        have hl := congrArg List.length this
        simp [List.length_dropLast] at hl
        have : s.display.currentValue.length = s.display.currentValue.data.length := rfl
        omega
      simp [Display.updateDisplay, hne]
    · next hlen =>
      simp [Display.updateDisplay]

theorem delete_branches_wit :
    step (run [.digit "5", .oper "+"]) .deleteKey = run [.digit "5", .oper "+"]
    ∧ (step (run [.oper "÷", .digit "0", .equalsKey]) .deleteKey).display.currentValue = "0"
    ∧ (step (run [.digit "1", .digit "2"]) .deleteKey).display.currentValue =
        (if 1 < (run [.digit "1", .digit "2"]).display.currentValue.length
          then (⟨(run [.digit "1", .digit "2"]).display.currentValue.data.dropLast⟩ : String)
          else "0") :=
  ⟨(delete_branches (run [.digit "5", .oper "+"])).1 (by decide!),
   ((delete_branches (run [.oper "÷", .digit "0", .equalsKey])).2.1 (by decide!) (by decide!)).1,
   (delete_branches (run [.digit "1", .digit "2"])).2.2 (by decide!) (by decide!)⟩

/-- C5 counterexample: after `0 ÷ 0 =` (display `Error`) and an operator
press, the display is still in the error state but `waitingForOperand` is
true, so `delete()` does nothing at all — it does not act like `clear()`:
the display keeps showing `Error` and the pending operator stays. -/
theorem delete_error_waiting_cex :
    (run [.oper "÷", .digit "0", .equalsKey, .oper "+"]).display.isError = true
    ∧ (run [.oper "÷", .digit "0", .equalsKey, .oper "+"]).waitingForOperand = true
    ∧ (run [.oper "÷", .digit "0", .equalsKey, .oper "+", .deleteKey]).display.currentValue
        = "Error"
    ∧ (run [.oper "÷", .digit "0", .equalsKey, .oper "+", .deleteKey]).display.currentValue
        ≠ "0"
    ∧ (run [.oper "÷", .digit "0", .equalsKey, .oper "+", .deleteKey]).currentOperator
        = some "+" := by
  refine ⟨by decide!, by decide!, by decide!, by decide!, by decide!⟩

/-! ### Operator re-selection without a second operand -/

/-- C8 (amended): pressing an operator while one is already pending and
`waitingForOperand` is still true performs no evaluation (no history entry,
display value unchanged) and keeps `waitingForOperand`; but `previousValue`
is *replaced by the current display value* — which coincides with the old
`previousValue` in the quoted `5, +, -` sequence only because the display
still shows `5`. -/
theorem operator_reselect_replaces_prev (s : CalcSt) (op2 : String) (p : JSNum)
    (hprev : s.previousValue = some p)
    (_hop : Calculator.opTruthy s.currentOperator = true)
    (hw : s.waitingForOperand = true) :
    (step s (.oper op2)).previousValue = some (Display.getCurrentValue s.display)
    ∧ (step s (.oper op2)).currentOperator = some op2
    ∧ (step s (.oper op2)).waitingForOperand = true
    ∧ (step s (.oper op2)).memory = s.memory
    ∧ (step s (.oper op2)).display.currentValue = s.display.currentValue
    ∧ (run [.digit "5", .oper "+", .oper "-"]).previousValue = some (.fin 5) := by
  have hnotnone : ¬ s.previousValue = none := by rw [hprev]; simp
  refine ⟨?_, ?_, ?_, ?_, ?_, by decide!⟩ <;>
    simp [step, Calculator.inputOperator, hnotnone, hw, Display.updateExpression]

theorem operator_reselect_replaces_prev_wit :
    (step (run [.digit "5", .oper "+"]) (.oper "-")).previousValue =
        some (Display.getCurrentValue (run [.digit "5", .oper "+"]).display)
    ∧ (step (run [.digit "5", .oper "+"]) (.oper "-")).currentOperator = some "-"
    ∧ (step (run [.digit "5", .oper "+"]) (.oper "-")).waitingForOperand = true
    ∧ (step (run [.digit "5", .oper "+"]) (.oper "-")).memory = (run [.digit "5", .oper "+"]).memory :=
  have h := operator_reselect_replaces_prev (run [.digit "5", .oper "+"]) "-" (.fin 5)
    (by decide!) (by decide!) (by decide!)
  ⟨h.1, h.2.1, h.2.2.1, h.2.2.2.1⟩

/-- C8 counterexample: with `+` pending and `waitingForOperand` still true
(no second operand was entered), pressing `-` after a `percentage()` does not
keep `previousValue = 5` — it is replaced by the current display value
`0.05`. -/
theorem operator_reselect_percentage_cex :
    (run [.digit "5", .oper "+", .percentKey]).currentOperator = some "+"
    ∧ (run [.digit "5", .oper "+", .percentKey]).waitingForOperand = true
    ∧ (run [.digit "5", .oper "+", .percentKey]).previousValue = some (.fin 5)
    ∧ (run [.digit "5", .oper "+", .percentKey, .oper "-"]).previousValue = some (.fin (1/20))
    ∧ some (JSNum.fin (1/20)) ≠ some (JSNum.fin 5) := by
  refine ⟨by decide!, by decide!, by decide!, by decide!, by decide!⟩

/-! ### Arithmetic failures in `equals` and in operator chaining -/

/-- C1 (amended): when the pending evaluation fails (returns a sentinel
string), `equals()` shows the `Error` sentinel and resets
`previousValue`/`currentOperator`/`waitingForOperand` exactly as a
successful equals does, and no exception propagates (every transition is a
total function).  An operator press that triggers chaining, however, absorbs
the failure differently: the display and `previousValue` are left unchanged,
the new operator is installed with `waitingForOperand = true`, and the
failed operation is still recorded in history. -/
theorem arith_failure_equals_vs_chaining (s : CalcSt) (op : String) (p : JSNum) (e : String)
    (hop : s.currentOperator = some op) (hne : op ≠ "")
    (hprev : s.previousValue = some p)
    (hfail : Operations.calculate (.num p) (.num (Display.getCurrentValue s.display)) op
      = .str e) :
    ((step s .equalsKey).display.currentValue = "Error"
      ∧ (step s .equalsKey).display.isError = true
      ∧ (step s .equalsKey).previousValue = none
      ∧ (step s .equalsKey).currentOperator = none
      ∧ (step s .equalsKey).waitingForOperand = false)
    ∧ (s.waitingForOperand = false → ∀ op2 : String,
        (step s (.oper op2)).display.currentValue = s.display.currentValue
        ∧ (step s (.oper op2)).previousValue = some p
        ∧ (step s (.oper op2)).currentOperator = some op2
        ∧ (step s (.oper op2)).waitingForOperand = true
        ∧ (step s (.oper op2)).memory =
            MemoryOperations.addToHistory s.memory
              (Operations.formatOperation p op (some (Display.getCurrentValue s.display)))
              (.str e)) := by
  constructor
  · simp only [step, Calculator.equals, hop, hprev]
    rw [if_pos hne]
    simp only [Calculator.calculate, hop, hprev, hfail]
    simp [Display.showResult, Operations.isValidResult, Display.updateDisplay,
      Calculator.resetState]
  · intro hw op2
    have hnotnone : ¬ s.previousValue = none := by rw [hprev]; simp
    have htruthy : Calculator.opTruthy s.currentOperator = true := by
      rw [hop]; simpa [Calculator.opTruthy] using hne
    simp only [step, Calculator.inputOperator, hnotnone, if_false, htruthy, hw]
    simp only [Calculator.calculate, hop, hprev, hfail]
    simp [Display.updateExpression]

theorem arith_failure_equals_vs_chaining_wit :
    (step (run [.oper "÷", .digit "0"]) .equalsKey).display.currentValue = "Error"
    ∧ (step (run [.oper "÷", .digit "0"]) .equalsKey).previousValue = none
    ∧ (step (run [.oper "÷", .digit "0"]) (.oper "+")).previousValue = some (.fin 0) :=
  have h := arith_failure_equals_vs_chaining (run [.oper "÷", .digit "0"]) "÷" (.fin 0) "Error"
    (by decide!) (by decide) (by decide!) (by decide!)
  ⟨h.1.1, h.1.2.2.1, (h.2 (by decide!) "+").2.1⟩

/-- C1 counterexample: in the chaining case (`0 ÷`, then `0`, then `+`) the
evaluation fails with the `Error` sentinel, yet the display afterwards does
*not* show `Error` (it still shows `0`) and the pending-operator state is not
reset (`previousValue` is still `0`, not `null`). -/
theorem arith_failure_chaining_cex :
    Operations.calculate (.num (.fin 0)) (.num (.fin 0)) "÷" = .str "Error"
    ∧ (run [.oper "÷", .digit "0", .oper "+"]).display.currentValue = "0"
    ∧ (run [.oper "÷", .digit "0", .oper "+"]).display.currentValue ≠ "Error"
    ∧ (run [.oper "÷", .digit "0", .oper "+"]).previousValue = some (.fin 0)
    ∧ (run [.oper "÷", .digit "0", .oper "+"]).previousValue ≠ none := by
  refine ⟨by decide!, by decide!, by decide!, by decide!, by decide!⟩

/-! ### Formatter/parser round trip -/

/-- C9 counterexample: `x = 999.999999999999` formats (via `toFixed(10)`
rounding) to `"1000"` — without separators, because the `>= 1000` separator
test uses the *original* value — but `parse` then `format` gives `"1,000"`,
so `format(parse(format(x))) ≠ format(x)`; the parse also returns `1000`,
outside any 15-significant-digit tolerance of `x`. -/
theorem format_roundtrip_cex :
    Utils.formatNumber (.num (.fin (999999999999999 / 10 ^ 12))) = "1000"
    ∧ Utils.toNumber (Utils.formatNumber (.num (.fin (999999999999999 / 10 ^ 12)))) = .fin 1000
    ∧ Utils.formatNumber
        (.num (Utils.toNumber (Utils.formatNumber (.num (.fin (999999999999999 / 10 ^ 12))))))
        = "1,000"
    ∧ Utils.formatNumber
        (.num (Utils.toNumber (Utils.formatNumber (.num (.fin (999999999999999 / 10 ^ 12))))))
        ≠ Utils.formatNumber (.num (.fin (999999999999999 / 10 ^ 12))) := by
  refine ⟨by decide!, by decide!, by decide!, by decide!⟩

/-! #### Digit-list lemmas -/

theorem digitsLE_zero (f : ℕ) : digitsLE f 0 = [] := by
  cases f <;> simp [digitsLE]

theorem digitsLE_stable (f : ℕ) : ∀ (g n : ℕ), n < 10 ^ f → f ≤ g → digitsLE f n = digitsLE g n := by
  induction f with
  | zero =>
    intro g n hn _
    interval_cases n
    simp [digitsLE_zero]
  | succ f ih =>
    intro g n hn hfg
    obtain ⟨g, rfl⟩ : ∃ g', g = g' + 1 := ⟨g - 1, by omega⟩
    by_cases h0 : n = 0
    · subst h0; simp [digitsLE]
    · simp only [digitsLE, h0, if_false]
      rw [ih g (n / 10) (by omega) (by omega)]

theorem ofDigitsLE_digitsLE (f : ℕ) : ∀ n : ℕ, n < 10 ^ f → ofDigitsLE (digitsLE f n) = n := by
  induction f with
  | zero =>
    intro n hn
    interval_cases n
    simp [digitsLE, ofDigitsLE]
  | succ f ih =>
    intro n hn
    by_cases h0 : n = 0
    · subst h0; simp [digitsLE, ofDigitsLE]
    · simp only [digitsLE, h0, if_false, ofDigitsLE, List.foldr_cons]
      have := ih (n / 10) (by omega)
      rw [ofDigitsLE] at this
      rw [this]
      omega

theorem digitsLE_lt_ten (f : ℕ) : ∀ (n d : ℕ), d ∈ digitsLE f n → d < 10 := by
  induction f with
  | zero => intro n d h; simp [digitsLE] at h
  | succ f ih =>
    intro n d h
    by_cases h0 : n = 0
    · subst h0; simp [digitsLE] at h
    · simp only [digitsLE, h0, if_false, List.mem_cons] at h
      rcases h with h | h
      · omega
      · exact ih _ _ h

theorem digitsLE_length_le (f : ℕ) : ∀ (j n : ℕ), n < 10 ^ j → (digitsLE f n).length ≤ j := by
  induction f with
  | zero => intro j n _; simp [digitsLE]
  | succ f ih =>
    intro j n hn
    by_cases h0 : n = 0
    · subst h0; simp [digitsLE]
    · simp only [digitsLE, h0, if_false, List.length_cons]
      have hj : j ≠ 0 := by
        rintro rfl
        simp at hn
        omega
      have := ih (j - 1) (n / 10) (by
        have : 10 ^ j = 10 ^ (j - 1) * 10 := by
          conv_lhs => rw [show j = (j - 1) + 1 by omega]
          ring
        omega)
      omega

theorem digitsLE_mul_pow (t : ℕ) : ∀ (f n : ℕ), n ≠ 0 → n * 10 ^ t < 10 ^ f →
    digitsLE f (n * 10 ^ t) = List.replicate t 0 ++ digitsLE f n := by
  induction t with
  | zero => intro f n _ _; simp
  | succ t ih =>
    intro f n h0 hlt
    have hm : n * 10 ^ (t + 1) = n * 10 ^ t * 10 := by ring
    have hne : n * 10 ^ t * 10 ≠ 0 :=
      Nat.mul_ne_zero (Nat.mul_ne_zero h0 (pow_ne_zero t (by norm_num))) (by norm_num)
    obtain ⟨f, rfl⟩ : ∃ f', f = f' + 1 := by
      refine ⟨f - 1, ?_⟩
      have h1 : (1:ℕ) ≤ n * 10 ^ (t + 1) := Nat.one_le_iff_ne_zero.mpr (by rw [hm]; exact hne)
      have hf : f ≠ 0 := by
        rintro rfl
        simp only [pow_zero] at hlt
        omega
      omega
    rw [hm] at hlt ⊢
    have hpow : (10:ℕ) ^ (f + 1) = 10 ^ f * 10 := by ring
    have hlt' : n * 10 ^ t < 10 ^ f := by omega
    have hnf : n < 10 ^ f := by
      have h1 : n ≤ n * 10 ^ t := Nat.le_mul_of_pos_right n (by positivity)
      omega
    conv_lhs => rw [show digitsLE (f + 1) (n * 10 ^ t * 10) = 0 :: digitsLE f (n * 10 ^ t) from by
      simp only [digitsLE, Nat.mul_mod_left, hne, if_false]
      rw [show n * 10 ^ t * 10 / 10 = n * 10 ^ t from by omega]]
    rw [ih f n h0 hlt']
    rw [digitsLE_stable f (f + 1) n hnf (by omega)]
    simp [List.replicate_succ]

/-! #### Digit character lemmas -/

theorem digitVal_digitChar (d : ℕ) (h : d < 10) : digitVal (digitChar d) = d := by
  interval_cases d <;> decide

theorem isDigitChar_digitChar (d : ℕ) (h : d < 10) : isDigitChar (digitChar d) = true := by
  interval_cases d <;> decide

theorem digit_char_ne (c : Char) (h : isDigitChar c = true) :
    c ≠ '-' ∧ c ≠ '+' ∧ c ≠ '.' ∧ c ≠ ',' ∧ c ≠ 'I' := by
  simp only [isDigitChar, Bool.and_eq_true, decide_eq_true_eq] at h
  refine ⟨?_, ?_, ?_, ?_, ?_⟩ <;> (rintro rfl; simp_all)

/-! #### `renderNat` lemmas -/

theorem renderNat_all_digits (n : ℕ) : ∀ c ∈ renderNat n, isDigitChar c = true := by
  intro c hc
  rw [renderNat] at hc
  split at hc
  · simp at hc; subst hc; decide
  · simp only [List.mem_reverse, List.mem_map] at hc
    obtain ⟨d, hd, rfl⟩ := hc
    exact isDigitChar_digitChar d (digitsLE_lt_ten 40 n d hd)

theorem parseNatChars_aux (l : List ℕ) (h : ∀ d ∈ l, d < 10) :
    parseNatChars ((l.map digitChar).reverse) = ofDigitsLE l := by
  induction l with
  | nil => simp [parseNatChars, ofDigitsLE]
  | cons d l ih =>
    simp only [List.map_cons, List.reverse_cons, parseNatChars, List.foldl_append,
      List.foldl_cons, List.foldl_nil]
    rw [parseNatChars] at ih
    rw [ih (fun x hx => h x (List.mem_cons_of_mem d hx))]
    rw [digitVal_digitChar d (h d (List.mem_cons_self d l))]
    simp [ofDigitsLE]
    ring

theorem parseNatChars_renderNat (n : ℕ) (h : n < 10 ^ 40) :
    parseNatChars (renderNat n) = n := by
  rw [renderNat]
  split
  · next h0 => subst h0; decide
  · rw [parseNatChars_aux _ (fun d hd => digitsLE_lt_ten 40 n d hd)]
    exact ofDigitsLE_digitsLE 40 n h

theorem renderNat_length_pos (n : ℕ) : 1 ≤ (renderNat n).length := by
  rw [renderNat]
  split
  · simp
  · next h0 =>
    show 1 ≤ (List.map digitChar (digitsLE (39 + 1) n)).reverse.length
    simp only [digitsLE, h0, if_false]
    simp

theorem renderNat_length_le (n j : ℕ) (h0 : n ≠ 0) (h : n < 10 ^ j) :
    (renderNat n).length ≤ j := by
  rw [renderNat, if_neg h0]
  simpa using digitsLE_length_le 40 j n h

theorem renderNat_mul_pow (n t : ℕ) (h0 : n ≠ 0) (h : n * 10 ^ t < 10 ^ 40) :
    renderNat (n * 10 ^ t) = renderNat n ++ List.replicate t '0' := by
  have hne : n * 10 ^ t ≠ 0 := Nat.mul_ne_zero h0 (pow_ne_zero t (by norm_num))
  rw [renderNat, if_neg hne, renderNat, if_neg h0]
  rw [digitsLE_mul_pow t 40 n h0 h]
  simp only [List.map_append, List.map_replicate, List.reverse_append, List.reverse_replicate]
  rw [show digitChar 0 = '0' from rfl]

/-! #### Scanner lemmas -/


theorem takeDigits_append (xs : List Char) (ys : List Char)
    (h : ∀ c ∈ xs, isDigitChar c = true) :
    takeDigits (xs ++ ys) = xs ++ takeDigits ys ∧ dropDigits (xs ++ ys) = dropDigits ys := by
  induction xs with
  | nil => simp
  | cons c xs ih =>
    have hc : isDigitChar c = true := h c (List.mem_cons_self c xs)
    have ht := ih (fun x hx => h x (List.mem_cons_of_mem c hx))
    constructor
    · rw [List.cons_append, takeDigits, if_pos hc, ht.1, List.cons_append]
    · rw [List.cons_append, dropDigits, if_pos hc, ht.2]

theorem takeDigits_all (xs : List Char) (h : ∀ c ∈ xs, isDigitChar c = true) :
    takeDigits xs = xs ∧ dropDigits xs = [] := by
  have h2 := takeDigits_append xs [] h
  rw [List.append_nil] at h2
  rw [show takeDigits ([] : List Char) = [] from rfl,
    show dropDigits ([] : List Char) = [] from rfl, List.append_nil] at h2
  exact h2

theorem takeDigits_not_digit (c : Char) (cs : List Char) (h : isDigitChar c = false) :
    takeDigits (c :: cs) = [] ∧ dropDigits (c :: cs) = c :: cs := by
  simp [takeDigits, dropDigits, h]

theorem parseNatChars_zeros (k : ℕ) : parseNatChars (List.replicate k '0') = 0 := by
  induction k with
  | zero => rfl
  | succ k ih =>
    rw [List.replicate_succ, parseNatChars, List.foldl_cons]
    rw [parseNatChars] at ih
    simpa [digitVal] using ih

/-- `parseFloat` on a plain numeral `ds` and on `ds.0000000000`. -/
theorem parseFloat_digits (ds : List Char) (hne : ds ≠ [])
    (h : ∀ c ∈ ds, isDigitChar c = true) :
    parseFloatChars ds = .fin (parseNatChars ds)
    ∧ parseFloatChars (ds ++ '.' :: List.replicate 10 '0') = .fin (parseNatChars ds) := by
  obtain ⟨d, ds', rfl⟩ : ∃ d ds', ds = d :: ds' := by
    cases ds with
    | nil => exact absurd rfl hne
    | cons d ds' => exact ⟨d, ds', rfl⟩
  have hd : isDigitChar d = true := h d (List.mem_cons_self d ds')
  obtain ⟨hd1, hd2, hd3, _, hd5⟩ := digit_char_ne d hd
  have hsign : ∀ tail : List Char, parseSign (d :: tail) = (false, d :: tail) := by
    intro tail
    simp [parseSign, hd1, hd2]
  have hinf : ∀ tail : List Char, ¬ ((d :: tail).take 8 = "Infinity".data) := by
    intro tail hcon
    rw [show ("Infinity".data : List Char) = 'I' :: "nfinity".data from rfl] at hcon
    simp only [List.take_succ_cons, List.cons.injEq] at hcon
    exact hd5 hcon.1
  have hall := takeDigits_all (d :: ds') h
  constructor
  · rw [parseFloatChars]
    simp only [hsign, hinf, if_false, hall.1, hall.2]
    simp [tenPowZ, List.cons_ne_nil, parseNatChars]
  · have heq : (d :: ds') ++ '.' :: List.replicate 10 '0'
        = d :: (ds' ++ '.' :: List.replicate 10 '0') := by simp
    have hdot := takeDigits_not_digit '.' (List.replicate 10 '0') (by decide)
    have e1 : takeDigits (d :: (ds' ++ '.' :: List.replicate 10 '0')) = d :: ds' := by
      rw [heq.symm, (takeDigits_append (d :: ds') ('.' :: List.replicate 10 '0') h).1,
        hdot.1, List.append_nil]
    have e2 : dropDigits (d :: (ds' ++ '.' :: List.replicate 10 '0'))
        = '.' :: List.replicate 10 '0' := by
      rw [heq.symm, (takeDigits_append (d :: ds') ('.' :: List.replicate 10 '0') h).2, hdot.2]
    rw [heq, parseFloatChars, hsign]
    simp only [hinf, if_false, e1, e2]
    simp [takeDigits, dropDigits, parseNatChars, digitVal, tenPowZ,
      show isDigitChar '0' = true from rfl]

/-- A leading minus sign negates the parse when the rest does not itself
start with a sign. -/
theorem parseFloat_neg (cs : List Char) (hsr : parseSign cs = (false, cs)) :
    parseFloatChars ('-' :: cs) = jsNeg (parseFloatChars cs) := by
  conv_lhs => rw [parseFloatChars]
  conv_rhs => rw [parseFloatChars]
  rw [show parseSign ('-' :: cs) = (true, cs) from by simp [parseSign], hsr]
  simp only
  split
  · simp [jsNeg]
  · split
    · simp [jsNeg]
    · simp [jsNeg]

/-! #### `toFixed` on integers -/

theorem floor_intCast_add_half (k : ℤ) : ⌊(k : ℚ) + 1/2⌋ = k := by
  rw [Int.floor_eq_iff]
  constructor
  · linarith
  · have : ((k + 1 : ℤ) : ℚ) = (k : ℚ) + 1 := by push_cast; ring
    linarith [this.ge, this.le]

theorem toFixedChars_neg (q : ℚ) (f : ℕ) (hq : q < 0) :
    toFixedChars q f = '-' :: toFixedChars (-q) f := by
  rw [toFixedChars, toFixedChars]
  rw [if_pos hq, if_neg (by linarith : ¬ (-q) < 0), abs_neg]

theorem toFixedChars_natCast (n : ℕ) (h0 : n ≠ 0) (h : n < 10 ^ 30) :
    toFixedChars (n : ℚ) 10 = renderNat n ++ '.' :: List.replicate 10 '0' := by
  rw [toFixedChars]
  rw [if_neg (by simp : ¬ ((n : ℚ) < 0))]
  rw [abs_of_nonneg (by positivity : (0:ℚ) ≤ (n : ℚ))]
  have hcast : (n : ℚ) * 10 ^ 10 = ((n * 10 ^ 10 : ℕ) : ℚ) := by push_cast; ring
  rw [hcast]
  rw [show ((n * 10 ^ 10 : ℕ) : ℚ) = (((n * 10 ^ 10 : ℕ) : ℤ) : ℚ) from by push_cast; ring]
  rw [floor_intCast_add_half, Int.toNat_natCast]
  have hlt : n * 10 ^ 10 < 10 ^ 40 := by
    have := Nat.mul_lt_mul_of_lt_of_le h (le_refl (10 ^ 10)) (by norm_num)
    calc n * 10 ^ 10 < 10 ^ 30 * 10 ^ 10 := this
      _ = 10 ^ 40 := by norm_num
  rw [renderNat_mul_pow n 10 h0 hlt]
  have hL : 1 ≤ (renderNat n).length := renderNat_length_pos n
  have hlen : (renderNat n ++ List.replicate 10 '0').length = (renderNat n).length + 10 := by
    simp
  rw [if_neg (by norm_num : ¬ (10 = 0))]
  rw [if_pos (by rw [hlen]; omega : 10 < (renderNat n ++ List.replicate 10 '0').length)]
  rw [hlen]
  rw [show (renderNat n).length + 10 - 10 = (renderNat n).length from by omega]
  rw [List.take_left' rfl, List.drop_left' rfl]

/-! #### `toString` on integers -/

theorem countFactor_spec (fuel : ℕ) : ∀ (p n : ℕ), 2 ≤ p → 0 < n → n < p ^ fuel →
    p ^ (countFactor fuel p n) ∣ n ∧ ¬ (p ∣ n / p ^ (countFactor fuel p n)) := by
  induction fuel with
  | zero =>
    intro p n hp hn hlt
    simp at hlt
    omega
  | succ fuel ih =>
    intro p n hp hn hlt
    by_cases hdvd : n % p = 0
    · have hpd : p ∣ n := Nat.dvd_of_mod_eq_zero hdvd
      have hcond : n % p = 0 ∧ n ≠ 0 ∧ 2 ≤ p := ⟨hdvd, by omega, hp⟩
      rw [countFactor, if_pos hcond]
      have hq : 0 < n / p := Nat.div_pos (Nat.le_of_dvd hn hpd) (by omega)
      have hqlt : n / p < p ^ fuel := by
        rw [Nat.div_lt_iff_lt_mul (by omega : 0 < p)]
        calc n < p ^ (fuel + 1) := hlt
          _ = p ^ fuel * p := by ring
      obtain ⟨ih1, ih2⟩ := ih p (n / p) hp hq hqlt
      constructor
      · obtain ⟨c, hc⟩ := ih1
        refine ⟨c, ?_⟩
        calc n = p * (n / p) := (Nat.mul_div_cancel' hpd).symm
          _ = p * (p ^ countFactor fuel p (n / p) * c) := by conv_lhs => rw [hc]
          _ = p ^ (countFactor fuel p (n / p) + 1) * c := by rw [pow_succ]; ring
      · have : n / p ^ (countFactor fuel p (n / p) + 1) = (n / p) / p ^ (countFactor fuel p (n / p)) := by
          rw [pow_succ, mul_comm, Nat.div_div_eq_div_mul, mul_comm]
        rw [this]
        exact ih2
    · have hcond : ¬ (n % p = 0 ∧ n ≠ 0 ∧ 2 ≤ p) := by
        intro hcon
        exact hdvd hcon.1
      rw [countFactor, if_neg hcond]
      simp only [pow_zero, Nat.div_one]
      exact ⟨one_dvd n, fun hcon => hdvd (Nat.eq_zero_of_dvd_of_lt hcon |> fun _ => Nat.mod_eq_zero_of_dvd hcon)⟩

theorem jsNumToString_neg (q : ℚ) (hq : q < 0) :
    jsNumToString (.fin q) = '-' :: jsNumToString (.fin (-q)) := by
  rw [jsNumToString, jsNumToString]
  rw [if_neg (by linarith : ¬ q = 0), if_neg (by linarith : ¬ (-q) = 0)]
  rw [if_pos hq, if_neg (by linarith : ¬ (-q) < 0), abs_neg]

theorem jsNumToString_natCast (n : ℕ) (h0 : n ≠ 0) (h : n < 10 ^ 15) :
    jsNumToString (.fin (n : ℚ)) = renderNat n := by
  rw [jsNumToString]
  rw [if_neg (by exact_mod_cast h0 : ¬ ((n : ℚ) = 0))]
  rw [if_neg (by simp : ¬ ((n : ℚ) < 0))]
  rw [abs_of_nonneg (by positivity : (0:ℚ) ≤ (n : ℚ))]
  rw [show ((n : ℚ)).den = 1 from Rat.den_natCast n]
  rw [show countFactor 64 2 1 = 0 from by decide, show countFactor 64 5 1 = 0 from by decide]
  simp only [max_self, pow_zero, mul_one]
  rw [show ((n : ℚ)).num = (n : ℤ) from Rat.num_natCast n, Int.toNat_natCast]
  simp only [Nat.cast_zero, sub_zero]
  -- decompose n = s * 10 ^ t with s not divisible by 10
  obtain ⟨hdvd, hnd⟩ := countFactor_spec 64 10 n (by norm_num) (Nat.pos_of_ne_zero h0)
    (lt_trans h (by norm_num))
  set t := countFactor 64 10 n with ht
  set s := n / 10 ^ t with hs
  have hst : s * 10 ^ t = n := Nat.div_mul_cancel hdvd
  have hsne : s ≠ 0 := by
    intro hcon
    rw [hcon, zero_mul] at hst
    exact h0 hst.symm
  have hn40 : n < 10 ^ 40 := lt_trans h (by norm_num)
  have hlen : (renderNat n).length = (renderNat s).length + t := by
    rw [← hst, renderNat_mul_pow s t hsne (by rw [hst]; exact hn40)]
    simp
  have hlen15 : (renderNat n).length ≤ 15 := renderNat_length_le n 15 h0 h
  have hlen15' : (renderNat s).length + t ≤ 15 := by omega
  rw [if_pos ?side1]
  case side1 =>
    constructor
    · omega
    · omega
  rw [show ((renderNat s).length : ℤ) + (t : ℤ) - (renderNat s).length = (t : ℤ) from by ring]
  rw [Int.toNat_natCast]
  rw [← renderNat_mul_pow s t hsne (by rw [hst]; exact hn40), hst]

/-! #### Thousands-separator lemmas -/

theorem filter_group3Rev (cs : List Char) : ∀ k : ℕ,
    (Utils.group3Rev k cs).filter (· ≠ ',') = cs.filter (· ≠ ',') := by
  induction cs with
  | nil => intro k; cases k <;> rfl
  | cons c cs ih =>
    intro k
    cases k with
    | zero =>
      show (',' :: c :: Utils.group3Rev 2 cs).filter (· ≠ ',') = (c :: cs).filter (· ≠ ',')
      rw [List.filter_cons, List.filter_cons, List.filter_cons]
      simp only [show ((',' : Char) ≠ ',') = False from by simp, decide_False,
        Bool.false_eq_true, if_false]
      rw [ih 2]
    | succ k =>
      show (c :: Utils.group3Rev k cs).filter (· ≠ ',') = (c :: cs).filter (· ≠ ',')
      rw [List.filter_cons, List.filter_cons, ih k]

theorem filter_sepIntPart (cs : List Char) (h : ∀ c ∈ cs, c ≠ ',') :
    (Utils.sepIntPart cs).filter (· ≠ ',') = cs := by
  have hself : cs.filter (· ≠ ',') = cs := by
    rw [List.filter_eq_self]
    intro a ha
    simpa using h a ha
  cases cs with
  | nil => rfl
  | cons c rest =>
    rw [Utils.sepIntPart]
    split
    · next hdash =>
      subst hdash
      rw [List.filter_cons]
      simp only [show (('-' : Char) ≠ ',') = True from by simp, decide_True, if_true]
      rw [List.filter_reverse, filter_group3Rev, ← List.filter_reverse, List.reverse_reverse]
      have : rest.filter (· ≠ ',') = rest := by
        rw [List.filter_eq_self]
        intro a ha
        simpa using h a (List.mem_cons_of_mem _ ha)
      rw [this]
    · rw [List.filter_reverse, filter_group3Rev, ← List.filter_reverse, List.reverse_reverse]
      exact hself

theorem removeSeps_addSeps (cs : List Char) (h : ∀ c ∈ cs, c ≠ ',') :
    Utils.removeThousandsSeparator (Utils.addThousandsSeparator ⟨cs⟩) = ⟨cs⟩ := by
  rw [Utils.addThousandsSeparator, Utils.removeThousandsSeparator]
  simp only [String.data]
  have htw : ∀ c ∈ cs.takeWhile (· ≠ '.'), c ≠ ',' := fun c hc =>
    h c ((List.takeWhile_sublist _).subset hc)
  have hdw : ∀ c ∈ cs.dropWhile (· ≠ '.'), c ≠ ',' := fun c hc =>
    h c ((List.dropWhile_sublist _).subset hc)
  rw [List.filter_append, filter_sepIntPart _ htw]
  rw [show (cs.dropWhile (· ≠ '.')).filter (· ≠ ',') = cs.dropWhile (· ≠ '.') from by
    rw [List.filter_eq_self]; intro a ha; simpa using hdw a ha]
  rw [List.takeWhile_append_dropWhile]

/-! #### Assembling the integer round trip -/

theorem parseSign_digit_head (d : Char) (cs : List Char) (hd : isDigitChar d = true) :
    parseSign (d :: cs) = (false, d :: cs) := by
  obtain ⟨h1, h2, _, _, _⟩ := digit_char_ne d hd
  simp [parseSign, h1, h2]

theorem renderNat_ne_nil (n : ℕ) : renderNat n ≠ [] := by
  have := renderNat_length_pos n
  intro hcon
  rw [hcon] at this
  simp at this

theorem parseFloat_renderNat (n : ℕ) (_h0 : n ≠ 0) (h : n < 10 ^ 40) :
    parseFloatChars (renderNat n) = .fin (n : ℚ)
    ∧ parseFloatChars (renderNat n ++ '.' :: List.replicate 10 '0') = .fin (n : ℚ) := by
  have hp := parseFloat_digits (renderNat n) (renderNat_ne_nil n) (renderNat_all_digits n)
  rw [parseNatChars_renderNat n h] at hp
  exact hp

theorem intCast_natAbs_ratNeg (n : ℤ) (hn : n < 0) : ((n.natAbs : ℕ) : ℚ) = -(n : ℚ) := by
  have : (n.natAbs : ℤ) = -n := by omega
  calc ((n.natAbs : ℕ) : ℚ) = ((n.natAbs : ℤ) : ℚ) := (Int.cast_natCast n.natAbs).symm
    _ = ((-n : ℤ) : ℚ) := by rw [this]
    _ = -(n : ℚ) := Int.cast_neg n

theorem parse_int_body (n : ℤ) (h0 : n ≠ 0) (h : n.natAbs < 10 ^ 40) :
    parseFloatChars ((if n < 0 then ['-'] else []) ++ renderNat n.natAbs) = .fin (n : ℚ) := by
  have hm0 : n.natAbs ≠ 0 := by omega
  obtain ⟨d, ds, hds⟩ : ∃ d ds, renderNat n.natAbs = d :: ds := by
    cases hh : renderNat n.natAbs with
    | nil => exact absurd hh (renderNat_ne_nil _)
    | cons d ds => exact ⟨d, ds, rfl⟩
  have hd : isDigitChar d = true :=
    renderNat_all_digits n.natAbs d (by rw [hds]; exact List.mem_cons_self d ds)
  by_cases hn : n < 0
  · rw [if_pos hn]
    rw [show ['-'] ++ renderNat n.natAbs = '-' :: renderNat n.natAbs from rfl]
    rw [hds, parseFloat_neg (d :: ds) (parseSign_digit_head d ds hd), ← hds]
    rw [(parseFloat_renderNat n.natAbs hm0 h).1]
    rw [jsNeg]
    rw [intCast_natAbs_ratNeg n hn]
    simp
  · rw [if_neg hn]
    rw [List.nil_append, (parseFloat_renderNat n.natAbs hm0 h).1]
    have : ((n.natAbs : ℕ) : ℚ) = (n : ℚ) := by
      have : (n.natAbs : ℤ) = n := by omega
      calc ((n.natAbs : ℕ) : ℚ) = ((n.natAbs : ℤ) : ℚ) := (Int.cast_natCast n.natAbs).symm
        _ = (n : ℚ) := by rw [this]
    rw [this]

theorem format_int_core (n : ℤ) (h0 : n ≠ 0) (h : n.natAbs < 10 ^ 15) :
    jsNumToString (parseFloatChars (toFixedChars (n : ℚ) 10))
      = (if n < 0 then ['-'] else []) ++ renderNat n.natAbs := by
  have hm0 : n.natAbs ≠ 0 := by omega
  have h30 : n.natAbs < 10 ^ 30 := lt_trans h (by norm_num)
  have h40 : n.natAbs < 10 ^ 40 := lt_trans h (by norm_num)
  obtain ⟨d, ds, hds⟩ : ∃ d ds, renderNat n.natAbs = d :: ds := by
    cases hh : renderNat n.natAbs with
    | nil => exact absurd hh (renderNat_ne_nil _)
    | cons d ds => exact ⟨d, ds, rfl⟩
  have hd : isDigitChar d = true :=
    renderNat_all_digits n.natAbs d (by rw [hds]; exact List.mem_cons_self d ds)
  by_cases hn : n < 0
  · have hq : (n : ℚ) < 0 := by exact_mod_cast hn
    rw [toFixedChars_neg (n : ℚ) 10 hq]
    rw [show -(n : ℚ) = ((n.natAbs : ℕ) : ℚ) from (intCast_natAbs_ratNeg n hn).symm]
    rw [toFixedChars_natCast n.natAbs hm0 h30]
    have hsd : parseSign (renderNat n.natAbs ++ '.' :: List.replicate 10 '0')
        = (false, renderNat n.natAbs ++ '.' :: List.replicate 10 '0') := by
      rw [hds, List.cons_append, parseSign_digit_head d _ hd, ← List.cons_append, ← hds]
    rw [parseFloat_neg _ hsd]
    rw [(parseFloat_renderNat n.natAbs hm0 h40).2]
    rw [jsNeg]
    rw [show -((n.natAbs : ℕ) : ℚ) = (n : ℚ) from by rw [intCast_natAbs_ratNeg n hn]; ring]
    rw [jsNumToString_neg (n : ℚ) hq]
    rw [show -(n : ℚ) = ((n.natAbs : ℕ) : ℚ) from (intCast_natAbs_ratNeg n hn).symm]
    rw [jsNumToString_natCast n.natAbs hm0 h]
    rw [if_pos hn]
    rfl
  · have hpos : 0 < n := by omega
    have hcast : (n : ℚ) = ((n.natAbs : ℕ) : ℚ) := by
      have : (n.natAbs : ℤ) = n := by omega
      calc (n : ℚ) = ((n.natAbs : ℤ) : ℚ) := by rw [this]
        _ = ((n.natAbs : ℕ) : ℚ) := Int.cast_natCast n.natAbs
    rw [hcast, toFixedChars_natCast n.natAbs hm0 h30]
    rw [(parseFloat_renderNat n.natAbs hm0 h40).2]
    rw [jsNumToString_natCast n.natAbs hm0 h]
    rw [if_neg hn, List.nil_append]

theorem abs_intCast_rat (n : ℤ) : |(n : ℚ)| = ((n.natAbs : ℕ) : ℚ) := by
  by_cases hn : n < 0
  · rw [abs_of_neg (by exact_mod_cast hn : (n : ℚ) < 0), intCast_natAbs_ratNeg n hn]
  · have hpos : 0 ≤ n := by omega
    rw [abs_of_nonneg (by exact_mod_cast hpos : (0:ℚ) ≤ (n : ℚ))]
    have hh : (n.natAbs : ℤ) = n := by omega
    calc (n : ℚ) = ((n.natAbs : ℤ) : ℚ) := by rw [hh]
      _ = ((n.natAbs : ℕ) : ℚ) := Int.cast_natCast n.natAbs

theorem toNumber_formatNumber_intCast (n : ℤ) (h : n.natAbs < 10 ^ 15) :
    Utils.toNumber (Utils.formatNumber (.num (.fin (n : ℚ)))) = .fin (n : ℚ) := by
  by_cases h0 : n = 0
  · subst h0
    show Utils.toNumber (Utils.formatNumber (.num (.fin ((0:ℤ) : ℚ)))) = .fin ((0:ℤ) : ℚ)
    decide!
  · have habs := abs_intCast_rat n
    have hcastlt : ((n.natAbs : ℕ) : ℚ) < ((10 ^ 15 : ℕ) : ℚ) := by exact_mod_cast h
    have hb1 : ¬ ((10:ℚ) ^ 15 ≤ |(n : ℚ)|) := by
      rw [habs]
      push_cast at hcastlt ⊢
      linarith
    have hone : (1:ℚ) ≤ ((n.natAbs : ℕ) : ℚ) := by
      have : 1 ≤ n.natAbs := by omega
      exact_mod_cast this
    have hb2 : ¬ (|(n : ℚ)| < 1 / (10:ℚ) ^ 10 ∧ (n : ℚ) ≠ 0) := by
      rintro ⟨hlt, _⟩
      rw [habs] at hlt
      have : (1:ℚ) / 10 ^ 10 < 1 := by norm_num
      linarith
    simp only [Utils.formatNumber]
    rw [if_neg hb1, if_neg hb2]
    rw [format_int_core n h0 h]
    have h40 : n.natAbs < 10 ^ 40 := lt_trans h (by norm_num)
    have hcf : ∀ c ∈ (if n < 0 then ['-'] else []) ++ renderNat n.natAbs, c ≠ ',' := by
      intro c hc
      rw [List.mem_append] at hc
      rcases hc with hc | hc
      · split at hc
        · simp only [List.mem_singleton] at hc
          subst hc
          decide
        · simp at hc
      · exact (digit_char_ne c (renderNat_all_digits n.natAbs c hc)).2.2.2.1
    split
    · rw [Utils.toNumber, removeSeps_addSeps _ hcf]
      exact parse_int_body n h0 h40
    · rw [Utils.toNumber, Utils.removeThousandsSeparator]
      simp only [String.data]
      rw [List.filter_eq_self.mpr (fun a ha => by simpa using hcf a ha)]
      exact parse_int_body n h0 h40

/-- C9 (amended): for every integer-valued finite `x` with `|x| < 10¹⁵` the
round trip is exact: `parse(format(x)) = x` (hence within any
significant-digit tolerance) and `format(parse(format(x))) = format(x)`.
For non-integers the `toFixed(10)` rounding and the thousands-separator
threshold break the general claim. -/
theorem format_parse_roundtrip_int (n : ℤ) (h : n.natAbs < 10 ^ 15) :
    Utils.toNumber (Utils.formatNumber (.num (.fin (n : ℚ)))) = .fin (n : ℚ)
    ∧ Utils.formatNumber
        (.num (Utils.toNumber (Utils.formatNumber (.num (.fin (n : ℚ))))))
        = Utils.formatNumber (.num (.fin (n : ℚ))) := by
  have h1 := toNumber_formatNumber_intCast n h
  exact ⟨h1, by rw [h1]⟩

theorem format_parse_roundtrip_int_wit :
    Utils.toNumber (Utils.formatNumber (.num (.fin ((1234567 : ℤ) : ℚ))))
      = .fin ((1234567 : ℤ) : ℚ)
    ∧ Utils.toNumber (Utils.formatNumber (.num (.fin ((-42 : ℤ) : ℚ))))
      = .fin ((-42 : ℤ) : ℚ) :=
  ⟨(format_parse_roundtrip_int 1234567 (by decide)).1,
   (format_parse_roundtrip_int (-42) (by decide)).1⟩
